import Mathlib

/-!
Shallow embedding of the reactive form-state engine (useForm hook and its
helpers: validate, createMetadata, set, change, confirm, submit, reset, on).

Modelling conventions:
- JavaScript runtime values stored in the form are modelled by the inductive
  type JSValue; the JS typeof operator becomes JSValue.typeof.
- A JS object used as a value mapping is an association list in insertion
  order (ValuesMap); object spread with one key replaced keeps the original
  insertion position of an existing key and appends a fresh key.
- JS number arithmetic for the progress percentage is modelled exactly over
  the rationals; +x.toFixed(2) becomes round2 (round half up at 2 decimals,
  the ECMAScript toFixed choice of the larger candidate for a tie).
- The RxJS subject is modelled by the list of events an operation emits;
  a subscription created by on delivers the events passing its filter.
- isDebugAvailable reads window.location.href, which is outside the program
  state; its outcome is a Boolean parameter of change.
- console.error diagnostics are modelled as a list of reported messages.
-/

/-- JavaScript runtime values that a form value mapping can hold. -/
inductive JSValue where
  | str (s : String)
  | num (n : Int)
  | boolean (b : Bool)
  | jsUndefined
deriving DecidableEq

/-- The JS typeof operator restricted to JSValue. -/
def JSValue.typeof : JSValue → String
  | .str _ => "string"
  | .num _ => "number"
  | .boolean _ => "boolean"
  | .jsUndefined => "undefined"

/-- A value mapping: association list of string keys in insertion order. -/
abbrev ValuesMap := List (String × JSValue)

/-- First-match lookup in an association list with string keys. -/
def lookupStr {α : Type} : List (String × α) → String → Option α
  | [], _ => none
  | (k, a) :: rest, key => if k = key then some a else lookupStr rest key

/-- Reading values[key] in JS: undefined when the key is absent. -/
def getValue (values : ValuesMap) (key : String) : JSValue :=
  (lookupStr values key).getD .jsUndefined

/-- Object spread with one key overridden, as in set: replaces the first
binding of the key when present, appends the binding otherwise. -/
def setValue : ValuesMap → String → JSValue → ValuesMap
  | [], key, v => [(key, v)]
  | (k, a) :: rest, key, v =>
      if k = key then (k, v) :: rest else (k, a) :: setValue rest key v

/-- A validation rule: receives the field value and the full value mapping
and returns an error message, the empty string meaning valid. -/
abbrev Rule := JSValue → ValuesMap → String

/-- Per-field ordered rule lists; an absent entry behaves as the empty list,
mirroring fns[key] ?? [] in validate. -/
abbrev Fns := String → List Rule

/-- The record validate returns. The progress percentage is a rational. -/
structure ValidationResult where
  invalid : Bool
  valid : Bool
  errors : List (String × String)
  validCount : Nat
  invalidCount : Nat
  progress : ℚ
deriving DecidableEq

/-- Inner loop of validate for one field: evaluate the rule list in order and
return the message of the first rule returning a non-empty string, or the
empty string when no rule fails. The break in the source stops evaluation at
the first failure; later rules are never applied. -/
def runFns (fnsList : List Rule) (value : JSValue) (values : ValuesMap) : String :=
  match fnsList with
  | [] => ""
  | fn :: rest =>
      let error := fn value values
      if error = "" then runFns rest value values else error

/-- Accumulator of the outer loop of validate: the invalid flag, the running
invalid counter and the error entries produced so far, in key order. -/
structure VState where
  invalid : Bool
  invalidCount : Nat
  errors : List (String × String)
deriving DecidableEq

/-- Outer loop of validate: for each key, errors[key] is initialised to the
empty string and overwritten by the first failing rule of the key, which also
sets the invalid flag and increments the invalid counter. The net effect per
key is captured by runFns: the recorded message is non-empty exactly when
some rule failed. -/
def validateLoop (values : ValuesMap) (fns : Fns) : List String → VState → VState
  | [], acc => acc
  | key :: rest, acc =>
      let error := runFns (fns key) (getValue values key) values
      let acc' :=
        if error = "" then
          { acc with errors := acc.errors ++ [(key, error)] }
        else
          { invalid := true, invalidCount := acc.invalidCount + 1,
            errors := acc.errors ++ [(key, error)] }
      validateLoop values fns rest acc'

/-- Rounding performed by +x.toFixed(2): the nearest multiple of one
hundredth, preferring the larger candidate on a tie. -/
def round2 (q : ℚ) : ℚ := (⌊q * 100 + 1 / 2⌋ : ℤ) / 100

/-- validate: walk the fixed key list, compute per-field errors with
short-circuit rule evaluation, and derive the aggregate counts, flags and
progress percentage. validCount is keys.length - invalidCount as in the
source; the loop never counts a key twice, so the subtraction is exact. -/
def validate (keys : List String) (values : ValuesMap) (fns : Fns) : ValidationResult :=
  let acc := validateLoop values fns keys ⟨false, 0, []⟩
  let validCount := keys.length - acc.invalidCount
  { invalid := acc.invalid
    errors := acc.errors
    valid := !acc.invalid
    validCount := validCount
    progress := round2 ((validCount : ℚ) / (keys.length : ℚ) * 100)
    invalidCount := acc.invalidCount }

/-- Touch and confirmation flags; the two pairs are complementary. -/
structure Metadata where
  touched : Bool
  untouched : Bool
  confirmed : Bool
  unconfirmed : Bool
deriving DecidableEq

/-- createMetadata from the source: builds the four complementary flags. -/
def createMetadata (touched confirmed : Bool) : Metadata :=
  { touched := touched
    untouched := !touched
    confirmed := confirmed
    unconfirmed := !confirmed }

/-- A change event flowing through the subject: the key and its new value. -/
structure OnEvent where
  key : String
  value : JSValue
deriving DecidableEq

/-- The mutable triple held by the form instance: current values, last
validation result and last metadata. -/
structure FormState where
  values : ValuesMap
  result : ValidationResult
  metadata : Metadata
deriving DecidableEq

/-- The fixed key list of a form: Object.keys of the initial value mapping,
computed once at construction. -/
def formKeys (initValues : ValuesMap) : List String := initValues.map Prod.fst

/-- Construction inside useForm: the initial state triple, also retained as
the reset target (initResult, initMetadata, initValues). -/
def useForm (initValues : ValuesMap) (fns : Fns) : FormState :=
  { values := initValues
    result := validate (formKeys initValues) initValues fns
    metadata := createMetadata false false }

/-- set: replace one key in the value mapping, revalidate the whole field
set, recompute metadata with touched true and confirmed preserved, and emit
one change event carrying the key and the new value. -/
def set (keys : List String) (fns : Fns) (s : FormState) (key : String)
    (value : JSValue) : FormState × List OnEvent :=
  let values := setValue s.values key value
  ({ values := values
     result := validate keys values fns
     metadata := createMetadata true s.metadata.confirmed },
   [⟨key, value⟩])

/-- confirm: revalidate current values and set metadata with confirmed true
and touched preserved. No value changes and no event is emitted. -/
def confirm (keys : List String) (fns : Fns) (s : FormState) : FormState :=
  { s with
    result := validate keys s.values fns
    metadata := createMetadata s.metadata.touched true }

/-- submit: calls preventDefault on the external submission handle and then
confirm; its effect on the form state equals confirm. -/
def submit (keys : List String) (fns : Fns) (s : FormState) : FormState :=
  confirm keys fns s

/-- reset: restore the triple to the snapshot captured at construction. No
event is emitted. -/
def reset (initValues : ValuesMap) (initResult : ValidationResult)
    (initMetadata : Metadata) (_s : FormState) : FormState :=
  { values := initValues
    result := initResult
    metadata := initMetadata }

/-- A native input change notification: the name attribute and the string
value of the input element. In the DOM, e.target.value is always a string. -/
structure InputChangeEvent where
  name : String
  value : String
deriving DecidableEq

/-- change: outside the debug posture, set is called unconditionally; under
the debug posture, a missing name, an unknown name, or a stored value whose
typeof differs from the string typeof of the incoming value is reported via
console.error and the mutation is skipped. The third component collects the
reported diagnostics. -/
def change (keys : List String) (fns : Fns) (debug : Bool) (s : FormState)
    (e : InputChangeEvent) : FormState × List OnEvent × List String :=
  if !debug then
    let r := set keys fns s e.name (.str e.value)
    (r.1, r.2, [])
  else if e.name = "" then
    (s, [], ["Lack of name property in input element"])
  else if !(keys.contains e.name) then
    (s, [], ["Unsupported property used as name attribute in input element"])
  else if (getValue s.values e.name).typeof ≠ "string" then
    (s, [], ["Unsupported change detected. You trying to change non string property with string value"])
  else
    let r := set keys fns s e.name (.str e.value)
    (r.1, r.2, [])

/-- The default filter of on: keep events whose key equals the subscribed
key. -/
def defaultFilter (key : String) : OnEvent → Bool :=
  fun event => event.key == key

/-- Delivery of a change stream to one subscription: the events that pass
the subscription filter, in emission order. -/
def deliver (filterFn : OnEvent → Bool) (events : List OnEvent) : List OnEvent :=
  events.filter filterFn

/-- The operation named on in the source (the word is reserved in Lean):
subscription to the change stream with the default key filter. -/
def onKey (key : String) (events : List OnEvent) : List OnEvent :=
  deliver (defaultFilter key) events

/-- One engine operation, for stating invariants over operation sequences. -/
inductive FormOp where
  | setOp (key : String) (value : JSValue)
  | confirmOp
  | submitOp
  | resetOp
  | changeOp (debug : Bool) (e : InputChangeEvent)

/-- Apply one operation to the form state, with the key list, rules and the
reset snapshot fixed at construction from the initial value mapping. -/
def applyOp (initValues : ValuesMap) (fns : Fns) (s : FormState) : FormOp → FormState
  | .setOp key value => (set (formKeys initValues) fns s key value).1
  | .confirmOp => confirm (formKeys initValues) fns s
  | .submitOp => submit (formKeys initValues) fns s
  | .resetOp =>
      reset initValues (useForm initValues fns).result (useForm initValues fns).metadata s
  | .changeOp debug e => (change (formKeys initValues) fns debug s e).1

/-- Run a sequence of operations from the freshly constructed state. -/
def runOps (initValues : ValuesMap) (fns : Fns) (ops : List FormOp) : FormState :=
  ops.foldl (applyOp initValues fns) (useForm initValues fns)

/-- Whether an operation is a set or a confirm call. -/
def isSetOrConfirm : FormOp → Bool
  | .setOp _ _ => true
  | .confirmOp => true
  | _ => false

/-- The net per-field outcome of validate: the message recorded for a key. -/
def fieldError (values : ValuesMap) (fns : Fns) (key : String) : String :=
  runFns (fns key) (getValue values key) values

/-- The scenario field set: an email and an age field. -/
def scenarioValues : ValuesMap := [("email", .str ""), ("age", .num 0)]

/-- Scenario rule for the email field: must contain an at sign. -/
def emailRule : Rule := fun v _ =>
  match v with
  | .str s => if s.data.contains '@' then "" else "must contain @"
  | _ => "must contain @"

/-- Scenario rule for the age field: must be at least 18. -/
def ageRule : Rule := fun v _ =>
  match v with
  | .num n => if 18 ≤ n then "" else "must be >= 18"
  | _ => "must be >= 18"

/-- Scenario rule mapping. -/
def scenarioFns : Fns := fun k =>
  if k = "email" then [emailRule] else if k = "age" then [ageRule] else []

/-- Scenario state right after construction. -/
def scenarioState0 : FormState := useForm scenarioValues scenarioFns

/-- Scenario state after setting a valid email. -/
def scenarioState1 : FormState :=
  (set (formKeys scenarioValues) scenarioFns scenarioState0 "email" (.str "a@b.com")).1

/-- Scenario state after additionally setting a valid age. -/
def scenarioState2 : FormState :=
  (set (formKeys scenarioValues) scenarioFns scenarioState1 "age" (.num 20)).1

/-! Helper lemmas about the validator and the value mapping. -/

theorem runFns_eq_empty_iff (l : List Rule) (v : JSValue) (vs : ValuesMap) :
    runFns l v vs = "" ↔ ∀ fn ∈ l, fn v vs = "" := by
  induction l with
  | nil => simp [runFns]
  | cons fn rest ih =>
      by_cases h : fn v vs = ""
      · simp [runFns, h, ih]
      · simp [runFns, h]

theorem runFns_first_fail (pre : List Rule) (fn : Rule) (post : List Rule)
    (v : JSValue) (vs : ValuesMap) (hpre : ∀ g ∈ pre, g v vs = "")
    (hfn : fn v vs ≠ "") : runFns (pre ++ fn :: post) v vs = fn v vs := by
  induction pre with
  | nil => simp [runFns, hfn]
  | cons g rest ih =>
      have hg : g v vs = "" := hpre g (by simp)
      have hrest : ∀ g ∈ rest, g v vs = "" := fun g hgm => hpre g (by simp [hgm])
      simpa [runFns, hg] using ih hrest

theorem validateLoop_errors (values : ValuesMap) (fns : Fns) (keys : List String)
    (acc : VState) :
    (validateLoop values fns keys acc).errors =
      acc.errors ++ keys.map (fun k => (k, fieldError values fns k)) := by
  induction keys generalizing acc with
  | nil => simp [validateLoop]
  | cons key rest ih =>
      simp only [validateLoop]
      split
      · rw [ih]; simp [fieldError]
      · rw [ih]; simp [fieldError]

theorem validateLoop_invalidCount (values : ValuesMap) (fns : Fns) (keys : List String)
    (acc : VState) :
    (validateLoop values fns keys acc).invalidCount =
      acc.invalidCount + keys.countP (fun k => fieldError values fns k ≠ "") := by
  induction keys generalizing acc with
  | nil => simp [validateLoop]
  | cons key rest ih =>
      simp only [validateLoop]
      by_cases h : runFns (fns key) (getValue values key) values = ""
      · rw [if_pos h, ih]
        have h' : fieldError values fns key = "" := h
        simp [List.countP_cons, h']
      · rw [if_neg h, ih]
        have h' : ¬ fieldError values fns key = "" := h
        simp [List.countP_cons, h']
        omega

theorem validateLoop_invalid (values : ValuesMap) (fns : Fns) (keys : List String)
    (acc : VState) :
    (validateLoop values fns keys acc).invalid =
      (acc.invalid || keys.any (fun k => fieldError values fns k ≠ "")) := by
  induction keys generalizing acc with
  | nil => simp [validateLoop]
  | cons key rest ih =>
      simp only [validateLoop]
      by_cases h : runFns (fns key) (getValue values key) values = ""
      · rw [if_pos h, ih]
        have h' : fieldError values fns key = "" := h
        simp [h']
      · rw [if_neg h, ih]
        have h' : ¬ fieldError values fns key = "" := h
        simp [h']

theorem validate_errors (keys : List String) (values : ValuesMap) (fns : Fns) :
    (validate keys values fns).errors =
      keys.map (fun k => (k, fieldError values fns k)) := by
  simpa [validate] using validateLoop_errors values fns keys ⟨false, 0, []⟩

theorem validate_invalidCount (keys : List String) (values : ValuesMap) (fns : Fns) :
    (validate keys values fns).invalidCount =
      keys.countP (fun k => fieldError values fns k ≠ "") := by
  simpa [validate] using validateLoop_invalidCount values fns keys ⟨false, 0, []⟩

theorem validate_invalid (keys : List String) (values : ValuesMap) (fns : Fns) :
    (validate keys values fns).invalid =
      keys.any (fun k => fieldError values fns k ≠ "") := by
  simpa [validate] using validateLoop_invalid values fns keys ⟨false, 0, []⟩

theorem validate_validCount (keys : List String) (values : ValuesMap) (fns : Fns) :
    (validate keys values fns).validCount =
      keys.length - (validate keys values fns).invalidCount := rfl

theorem validate_valid (keys : List String) (values : ValuesMap) (fns : Fns) :
    (validate keys values fns).valid = !(validate keys values fns).invalid := rfl

theorem validate_progress (keys : List String) (values : ValuesMap) (fns : Fns) :
    (validate keys values fns).progress =
      round2 (((validate keys values fns).validCount : ℚ) / (keys.length : ℚ) * 100) := rfl

theorem validate_invalidCount_le (keys : List String) (values : ValuesMap) (fns : Fns) :
    (validate keys values fns).invalidCount ≤ keys.length := by
  rw [validate_invalidCount]
  exact List.countP_le_length _

theorem lookupStr_setValue_self (vs : ValuesMap) (key : String) (v : JSValue) :
    lookupStr (setValue vs key v) key = some v := by
  induction vs with
  | nil => simp [setValue, lookupStr]
  | cons kv rest ih =>
      obtain ⟨k, a⟩ := kv
      by_cases h : k = key
      · simp [setValue, lookupStr, h]
      · simp [setValue, lookupStr, h, ih]

theorem lookupStr_setValue_ne (vs : ValuesMap) (key k : String) (v : JSValue)
    (h : k ≠ key) : lookupStr (setValue vs key v) k = lookupStr vs k := by
  have hk : ¬ (key = k) := fun hh => h hh.symm
  induction vs with
  | nil => simp [setValue, lookupStr, hk]
  | cons kv rest ih =>
      obtain ⟨k0, a⟩ := kv
      by_cases h0 : k0 = key
      · subst h0
        simp [setValue, lookupStr, hk]
      · simp [setValue, lookupStr, h0, ih]

theorem lookupStr_map_mem (keys : List String) (f : String → String) (key : String)
    (hk : key ∈ keys) :
    lookupStr (keys.map (fun k => (k, f k))) key = some (f key) := by
  induction keys with
  | nil => cases hk
  | cons k rest ih =>
      by_cases h : k = key
      · subst h
        simp [lookupStr]
      · have : key ∈ rest := by
          rcases List.mem_cons.mp hk with h1 | h1
          · exact absurd h1.symm h
          · exact h1
        simp [lookupStr, h, ih this]

theorem validate_count_split (keys : List String) (values : ValuesMap) (fns : Fns) :
    (validate keys values fns).validCount + (validate keys values fns).invalidCount =
      keys.length := by
  have h := validate_invalidCount_le keys values fns
  rw [validate_validCount]
  omega

theorem change_state_eq_or (keys : List String) (fns : Fns) (debug : Bool)
    (s : FormState) (e : InputChangeEvent) :
    (change keys fns debug s e).1 = s ∨
    (change keys fns debug s e).1 = (set keys fns s e.name (.str e.value)).1 := by
  cases debug with
  | false => right; rfl
  | true =>
      by_cases h1 : e.name = ""
      · left; simp [change, h1]
      · by_cases h2 : e.name ∈ keys
        · by_cases h3 : (getValue s.values e.name).typeof = "string"
          · right; simp [change, h1, h2, h3]
          · left; simp [change, h1, h2, h3]
        · left; simp [change, h1, h2]

theorem applyOp_count (initValues : ValuesMap) (fns : Fns) (s : FormState) (op : FormOp)
    (hs : s.result.validCount + s.result.invalidCount = (formKeys initValues).length) :
    (applyOp initValues fns s op).result.validCount +
      (applyOp initValues fns s op).result.invalidCount = (formKeys initValues).length := by
  cases op with
  | setOp key value => exact validate_count_split _ _ _
  | confirmOp => exact validate_count_split _ _ _
  | submitOp => exact validate_count_split _ _ _
  | resetOp => exact validate_count_split _ _ _
  | changeOp debug e =>
      have hgoal : applyOp initValues fns s (FormOp.changeOp debug e) =
          (change (formKeys initValues) fns debug s e).1 := rfl
      rcases change_state_eq_or (formKeys initValues) fns debug s e with h | h
      · rw [hgoal, h]
        exact hs
      · rw [hgoal, h]
        exact validate_count_split _ _ _

theorem foldl_applyOp_count (initValues : ValuesMap) (fns : Fns) (ops : List FormOp)
    (s : FormState)
    (hs : s.result.validCount + s.result.invalidCount = (formKeys initValues).length) :
    (ops.foldl (applyOp initValues fns) s).result.validCount +
      (ops.foldl (applyOp initValues fns) s).result.invalidCount =
      (formKeys initValues).length := by
  induction ops generalizing s with
  | nil => exact hs
  | cons op rest ih => exact ih _ (applyOp_count initValues fns s op hs)

/-- C1: after set(key, value) on a form whose key list contains key, the
recorded error for key is empty iff no rule in the rule list of key returns a
non-empty message on the new value mapping; rules are evaluated in list order
and evaluation stops at the first rule returning a non-empty message, whose
message is recorded regardless of the rules after it. -/
theorem C1_set_errors_shortCircuit (keys : List String) (fns : Fns) (s : FormState)
    (key : String) (v : JSValue) (hk : key ∈ keys) :
    (lookupStr (set keys fns s key v).1.result.errors key = some "" ↔
      ∀ fn ∈ fns key, fn v (set keys fns s key v).1.values = "") ∧
    (∀ pre fn post, fns key = pre ++ fn :: post →
      (∀ g ∈ pre, g v (set keys fns s key v).1.values = "") →
      fn v (set keys fns s key v).1.values ≠ "" →
      lookupStr (set keys fns s key v).1.result.errors key =
        some (fn v (set keys fns s key v).1.values)) := by
  have hv : (set keys fns s key v).1.values = setValue s.values key v := rfl
  have hget : getValue (setValue s.values key v) key = v := by
    simp [getValue, lookupStr_setValue_self]
  have herr : lookupStr (set keys fns s key v).1.result.errors key =
      some (runFns (fns key) v (setValue s.values key v)) := by
    have h1 : (set keys fns s key v).1.result.errors =
        keys.map (fun k => (k, fieldError (setValue s.values key v) fns k)) :=
      validate_errors keys (setValue s.values key v) fns
    rw [h1, lookupStr_map_mem _ _ _ hk, fieldError, hget]
  rw [hv]
  constructor
  · rw [herr]
    constructor
    · intro h
      exact (runFns_eq_empty_iff _ _ _).mp (Option.some.inj h)
    · intro h
      rw [(runFns_eq_empty_iff _ _ _).mpr h]
  · intro pre fn post hsplit hpre hfn
    rw [herr, hsplit, runFns_first_fail pre fn post v _ hpre hfn]

theorem C1_witness :
    lookupStr (set (formKeys scenarioValues) scenarioFns scenarioState0 "email"
        (JSValue.str "a@b.com")).1.result.errors "email" = some "" :=
  (C1_set_errors_shortCircuit (formKeys scenarioValues) scenarioFns scenarioState0
      "email" (JSValue.str "a@b.com") (by decide)).1.mpr (by decide)

/-- C2 counterexample: outside the debug posture (isDebugAvailable false) a
change call whose event has an empty name is not skipped: set runs, the value
mapping changes and a change event is emitted, refuting the unconditional
claim. -/
theorem C2_counterexample :
    (change (formKeys scenarioValues) scenarioFns false scenarioState0
        ⟨"", "y"⟩).1.values ≠ scenarioState0.values ∧
    (change (formKeys scenarioValues) scenarioFns false scenarioState0
        ⟨"", "y"⟩).2.1 ≠ [] := by
  constructor
  · decide
  · decide

/-- C2 amended: when the debug posture is enabled, a change call whose event
carries a missing name, an unknown name, or whose stored value has a typeof
other than string (the typeof of every incoming DOM value) is skipped: the
state is unchanged, no event is emitted, and a diagnostic is reported. -/
theorem C2_change_guard (keys : List String) (fns : Fns) (debug : Bool)
    (s : FormState) (e : InputChangeEvent) (hdbg : debug = true)
    (hbad : e.name = "" ∨ e.name ∉ keys ∨ (getValue s.values e.name).typeof ≠ "string") :
    (change keys fns debug s e).1 = s ∧ (change keys fns debug s e).2.1 = [] ∧
    (change keys fns debug s e).2.2 ≠ [] := by
  subst hdbg
  by_cases h1 : e.name = ""
  · simp [change, h1]
  · by_cases h2 : e.name ∈ keys
    · by_cases h3 : (getValue s.values e.name).typeof = "string"
      · rcases hbad with hb | hb | hb
        · exact absurd hb h1
        · exact absurd h2 hb
        · exact absurd h3 hb
      · simp [change, h1, h2, h3]
    · simp [change, h1, h2]

theorem C2_witness :
    (change (formKeys scenarioValues) scenarioFns true scenarioState0
        ⟨"", "y"⟩).1 = scenarioState0 ∧
    (change (formKeys scenarioValues) scenarioFns true scenarioState0
        ⟨"", "y"⟩).2.1 = [] ∧
    (change (formKeys scenarioValues) scenarioFns true scenarioState0
        ⟨"", "y"⟩).2.2 ≠ [] :=
  C2_change_guard (formKeys scenarioValues) scenarioFns true scenarioState0
    ⟨"", "y"⟩ rfl (Or.inl rfl)

/-- C3: after any finite sequence of operations starting from construction,
validCount plus invalidCount in the current validation result equals the
number of fields fixed at creation. -/
theorem C3_count_invariant (initValues : ValuesMap) (fns : Fns) (ops : List FormOp) :
    (runOps initValues fns ops).result.validCount +
      (runOps initValues fns ops).result.invalidCount = (formKeys initValues).length :=
  foldl_applyOp_count initValues fns ops (useForm initValues fns)
    (validate_count_split _ _ _)

/-- C4: running reset after any sequence of set and confirm calls restores
values, validation result and metadata to exactly the state produced at
construction. -/
theorem C4_reset_restores (initValues : ValuesMap) (fns : Fns) (ops : List FormOp)
    (_hops : ∀ op ∈ ops, isSetOrConfirm op = true) :
    applyOp initValues fns (runOps initValues fns ops) FormOp.resetOp =
      useForm initValues fns := rfl

theorem C4_witness :
    applyOp scenarioValues scenarioFns
      (runOps scenarioValues scenarioFns
        [FormOp.setOp "email" (JSValue.str "a@b.com"), FormOp.confirmOp,
         FormOp.setOp "age" (JSValue.num 20)])
      FormOp.resetOp = useForm scenarioValues scenarioFns :=
  C4_reset_restores scenarioValues scenarioFns
    [FormOp.setOp "email" (JSValue.str "a@b.com"), FormOp.confirmOp,
     FormOp.setOp "age" (JSValue.num 20)] (by decide)

/-- C5: a subscription created by on with the default predicate receives no
event from a set call for a different key, and exactly one event, carrying
the new value, from a set call for the matching key. -/
theorem C5_on_delivery (keys : List String) (fns : Fns) (s : FormState)
    (key k : String) (v : JSValue) :
    (k ≠ key → onKey key (set keys fns s k v).2 = []) ∧
    onKey key (set keys fns s key v).2 = [⟨key, v⟩] := by
  constructor
  · intro h
    show onKey key [⟨k, v⟩] = []
    simp [onKey, deliver, defaultFilter, h]
  · show onKey key [⟨key, v⟩] = [⟨key, v⟩]
    simp [onKey, deliver, defaultFilter]

theorem C5_witness :
    onKey "age" (set (formKeys scenarioValues) scenarioFns scenarioState0 "email"
      (JSValue.str "a@b.com")).2 = [] ∧
    onKey "age" (set (formKeys scenarioValues) scenarioFns scenarioState1 "age"
      (JSValue.num 20)).2 = [⟨"age", JSValue.num 20⟩] :=
  ⟨(C5_on_delivery (formKeys scenarioValues) scenarioFns scenarioState0 "age" "email"
      (JSValue.str "a@b.com")).1 (by decide),
   (C5_on_delivery (formKeys scenarioValues) scenarioFns scenarioState1 "age" "age"
      (JSValue.num 20)).2⟩

/-- C6: set replaces exactly the targeted binding of the value mapping and
leaves every other key's binding unchanged, recomputes the validation result
over the whole field set from the new values, and produces metadata with
touched true and confirmed preserved; confirm leaves the values unchanged and
produces metadata with confirmed true and touched preserved. -/
theorem C6_set_confirm_frame (keys : List String) (fns : Fns) (s : FormState)
    (key : String) (v : JSValue) :
    lookupStr (set keys fns s key v).1.values key = some v ∧
    (∀ k, k ≠ key → lookupStr (set keys fns s key v).1.values k = lookupStr s.values k) ∧
    (set keys fns s key v).1.result = validate keys (set keys fns s key v).1.values fns ∧
    (set keys fns s key v).1.metadata.touched = true ∧
    (set keys fns s key v).1.metadata.confirmed = s.metadata.confirmed ∧
    (confirm keys fns s).values = s.values ∧
    (confirm keys fns s).metadata.confirmed = true ∧
    (confirm keys fns s).metadata.touched = s.metadata.touched := by
  refine ⟨?_, ?_, rfl, rfl, rfl, rfl, rfl, rfl⟩
  · exact lookupStr_setValue_self s.values key v
  · intro k hk
    exact lookupStr_setValue_ne s.values key k v hk

theorem C6_witness :
    lookupStr (set (formKeys scenarioValues) scenarioFns scenarioState0 "email"
      (JSValue.str "a@b.com")).1.values "email" = some (JSValue.str "a@b.com") ∧
    lookupStr (set (formKeys scenarioValues) scenarioFns scenarioState0 "email"
      (JSValue.str "a@b.com")).1.values "age" = lookupStr scenarioState0.values "age" ∧
    (set (formKeys scenarioValues) scenarioFns scenarioState0 "email"
      (JSValue.str "a@b.com")).1.metadata.touched = true ∧
    (confirm (formKeys scenarioValues) scenarioFns scenarioState0).metadata.confirmed = true :=
  ⟨(C6_set_confirm_frame (formKeys scenarioValues) scenarioFns scenarioState0 "email"
      (JSValue.str "a@b.com")).1,
   (C6_set_confirm_frame (formKeys scenarioValues) scenarioFns scenarioState0 "email"
      (JSValue.str "a@b.com")).2.1 "age" (by decide),
   (C6_set_confirm_frame (formKeys scenarioValues) scenarioFns scenarioState0 "email"
      (JSValue.str "a@b.com")).2.2.2.1,
   (C6_set_confirm_frame (formKeys scenarioValues) scenarioFns scenarioState0 "email"
      (JSValue.str "a@b.com")).2.2.2.2.2.2.1⟩

/-- C7: confirm applied twice in a row with no intervening set yields the
same validation result both times. -/
theorem C7_confirm_idempotent (keys : List String) (fns : Fns) (s : FormState) :
    (confirm keys fns (confirm keys fns s)).result = (confirm keys fns s).result := rfl

theorem scenario_len_cast : ((formKeys scenarioValues).length : ℚ) = 2 := by
  norm_num [formKeys, scenarioValues]

/-- C8: the progress of every validation result is validCount over the field
count, times 100, rounded to two decimals; in the two-field scenario the
progress is 0 while both fields fail, 50 once exactly one field is valid,
and 100 once both are valid. -/
theorem C8_progress :
    (∀ keys values fns, (validate keys values fns).progress =
      round2 (((validate keys values fns).validCount : ℚ) / (keys.length : ℚ) * 100)) ∧
    scenarioState0.result.invalidCount = 2 ∧ scenarioState0.result.progress = 0 ∧
    scenarioState1.result.invalidCount = 1 ∧ scenarioState1.result.progress = 50 ∧
    scenarioState2.result.invalidCount = 0 ∧ scenarioState2.result.progress = 100 := by
  refine ⟨fun keys values fns => validate_progress keys values fns,
    by decide, ?_, by decide, ?_, by decide, ?_⟩
  · have h : scenarioState0.result.validCount = 0 := by decide
    have h2 : scenarioState0.result.progress =
        round2 ((scenarioState0.result.validCount : ℚ) /
          ((formKeys scenarioValues).length : ℚ) * 100) :=
      validate_progress _ _ _
    rw [h2, h, scenario_len_cast]
    norm_num [round2]
  · have h : scenarioState1.result.validCount = 1 := by decide
    have h2 : scenarioState1.result.progress =
        round2 ((scenarioState1.result.validCount : ℚ) /
          ((formKeys scenarioValues).length : ℚ) * 100) :=
      validate_progress _ _ _
    rw [h2, h, scenario_len_cast]
    norm_num [round2]
  · have h : scenarioState2.result.validCount = 2 := by decide
    have h2 : scenarioState2.result.progress =
        round2 ((scenarioState2.result.validCount : ℚ) /
          ((formKeys scenarioValues).length : ℚ) * 100) :=
      validate_progress _ _ _
    rw [h2, h, scenario_len_cast]
    norm_num [round2]

/-- C9: the metadata right after construction, which is also the metadata
restored by reset, is touched false, untouched true, confirmed false,
unconfirmed true. -/
theorem C9_initial_metadata (initValues : ValuesMap) (fns : Fns) (s : FormState) :
    (useForm initValues fns).metadata =
      { touched := false, untouched := true, confirmed := false, unconfirmed := true } ∧
    (applyOp initValues fns s FormOp.resetOp).metadata =
      { touched := false, untouched := true, confirmed := false, unconfirmed := true } :=
  ⟨rfl, rfl⟩

/-- C10: every validate output has exactly one error entry per key in key
order, its invalidCount is the number of entries with a non-empty message,
the invalid flag holds exactly when some entry has a non-empty message, and
valid is the negation of invalid. -/
theorem C10_aggregate_flags (keys : List String) (values : ValuesMap) (fns : Fns) :
    (validate keys values fns).errors.map Prod.fst = keys ∧
    (validate keys values fns).invalidCount =
      ((validate keys values fns).errors.filter (fun e => e.2 ≠ "")).length ∧
    ((validate keys values fns).invalid = true ↔
      ∃ e ∈ (validate keys values fns).errors, e.2 ≠ "") ∧
    (validate keys values fns).valid = !(validate keys values fns).invalid := by
  refine ⟨?_, ?_, ?_, rfl⟩
  · rw [validate_errors, List.map_map]
    have hcomp : (Prod.fst ∘ fun k => (k, fieldError values fns k)) = id := rfl
    rw [hcomp, List.map_id]
  · rw [validate_errors, validate_invalidCount]
    induction keys with
    | nil => simp
    | cons key rest ih =>
        by_cases h : fieldError values fns key = ""
        · simp [List.countP_cons, h]
          simpa using ih
        · simp [List.countP_cons, h]
          simpa using ih
  · rw [validate_invalid, validate_errors]
    constructor
    · intro h
      rcases List.any_eq_true.mp h with ⟨k, hkmem, hk⟩
      exact ⟨(k, fieldError values fns k), List.mem_map_of_mem _ hkmem, by simpa using hk⟩
    · intro h
      rcases h with ⟨e, hemem, he⟩
      rcases List.mem_map.mp hemem with ⟨k, hkmem, hke⟩
      refine List.any_eq_true.mpr ⟨k, hkmem, ?_⟩
      simp only [← hke] at he
      simpa using he
